import Mathlib

/-!
Verification of the API-generator core
(`tensorflow/python/tools/api/generator2/generator/generator.py`).

The Python string primitives used by the generator are embedded as functions
on `String` and `List Char`.  The per-module entrypoint maps and
generated-import maps are embedded as functions into `Finset` (Python
`set` semantics); dictionary key sets are carried explicitly where a claim
depends on them.
-/

/-- Python `s.startswith(pre)`. -/
def pyStartsWith (s pre : String) : Bool :=
  pre.data.isPrefixOf s.data

/-- Python `s.endswith(suf)`. -/
def pyEndsWith (s suf : String) : Bool :=
  suf.data.isSuffixOf s.data

/-- Python `s.removeprefix(pre)`: drop `pre` from the front when it is a prefix. -/
def pyCutFront (s pre : String) : String :=
  if pre.data.isPrefixOf s.data then ⟨s.data.drop pre.data.length⟩ else s

/-- Python `s.removesuffix(suf)`: drop `suf` from the back when it is a suffix. -/
def pyCutBack (s suf : String) : String :=
  if suf.data.isSuffixOf s.data then ⟨s.data.take (s.data.length - suf.data.length)⟩ else s

/-- Python `s.strip(c)` for a single character `c`. -/
def pyStrip (c : Char) (s : String) : String :=
  ⟨((s.data.dropWhile (· = c)).reverse.dropWhile (· = c)).reverse⟩

/-- Python `s.replace(a, b)` for single characters `a`, `b`. -/
def pyReplaceChar (s : String) (a b : Char) : String :=
  ⟨s.data.map (fun ch => if ch = a then b else ch)⟩

/-- Index of the first occurrence of the character `c`, if any. -/
def findIdxCh (c : Char) : List Char → Option Nat
  | [] => none
  | x :: xs => if x = c then some 0 else (findIdxCh c xs).map (· + 1)

/-- Python `s.find(c)`: index of the first occurrence, `-1` if absent. -/
def pyFind (l : List Char) (c : Char) : Int :=
  match findIdxCh c l with
  | some n => (n : Int)
  | none => -1

/-- Python `s.rfind(c)`: index of the last occurrence, `-1` if absent. -/
def pyRfind (l : List Char) (c : Char) : Int :=
  match findIdxCh c l.reverse with
  | some n => (l.length : Int) - 1 - (n : Int)
  | none => -1

/-- Python slice `l[i:]`, with Python's clamping of negative indices. -/
def pySliceFrom (l : List Char) (i : Int) : List Char :=
  if 0 ≤ i then l.drop i.toNat else l.drop (l.length - (-i).toNat)

/-- Python slice `l[:i]`, with Python's clamping of negative indices. -/
def pySliceTo (l : List Char) (i : Int) : List Char :=
  if 0 ≤ i then l.take i.toNat else l.take (l.length - (-i).toNat)

/-- Modelled from the spec: one exported-symbol record of the Symbol Store
(`generator2/shared/exported_api.py`, which is not among the sources): owning
file path, local symbol name, source line number, and the ordered lists of
version-1 and version-2 public names. -/
structure ExportedSymbol where
  file_name : String
  symbol_name : String
  line_no : Nat
  v1_apis : List String
  v2_apis : List String
deriving DecidableEq

/-- `_Entrypoint` of `generator.py`: the module a symbol is exposed in, the
name it is exported as, and the backing symbol. -/
structure Entrypoint where
  module : String
  name : String
  exported_symbol : ExportedSymbol
deriving DecidableEq

/-- `_get_import_path` of `generator.py`. -/
def _get_import_path (file : String) (file_prefixes_to_strip : List String)
    (module_pre : String) : String :=
  let p := file_prefixes_to_strip.foldl (fun acc pre => pyCutFront acc pre) file
  let p := pyCutBack p ".py"
  let p := pyCutBack p "__init__"
  let p := pyStrip '/' p
  let p := pyReplaceChar p '/' '.'
  module_pre ++ p

/-- `_should_skip_file` of `generator.py`. -/
def _should_skip_file (file : String) (file_prefixes_to_strip : List String)
    (packages_to_ignore : List String) (module_pre : String) : Bool :=
  let import_path := _get_import_path file file_prefixes_to_strip module_pre
  packages_to_ignore.any (fun pkg => pyStartsWith import_path pkg)

/-- Containing module computed by `add_exported_symbols` in `get_public_api`:
`module = output_package`, extended with `api_name[first_dot+1 : last_dot]`
when `index_of_first_dot + 1 < index_of_last_dot`. -/
def apiModule (output_package : String) (api_name : String) : String :=
  let index_of_last_dot := pyRfind api_name.data '.'
  let index_of_first_dot := pyFind api_name.data '.'
  if index_of_first_dot + 1 < index_of_last_dot then
    output_package ++ "." ++
      (⟨pySliceFrom (pySliceTo api_name.data index_of_last_dot) (index_of_first_dot + 1)⟩ : String)
  else
    output_package

/-- Exposed name computed by `add_exported_symbols`: `api_name[last_dot+1:]`. -/
def apiName (api_name : String) : String :=
  ⟨pySliceFrom api_name.data (pyRfind api_name.data '.' + 1)⟩

/-- `add_exported_symbols` of `get_public_api`: insert one `Entrypoint` per
public name of the symbol into the per-module entrypoint map. -/
def add_exported_symbols (output_package : String) (s : ExportedSymbol)
    (api_names : List String) (eps : String → Finset Entrypoint) :
    String → Finset Entrypoint :=
  api_names.foldl
    (fun acc api_name =>
      let module := apiModule output_package api_name
      let name := apiName api_name
      fun k => if k = module then insert ⟨module, name, s⟩ (acc k) else acc k)
    eps

/-- Body of the entrypoint-building loop of `get_public_api` for one symbol:
skipped symbols contribute to neither version's map, others contribute their
`v1_apis` to the version-1 map and their `v2_apis` to the version-2 map. -/
def get_public_api_step (file_prefixes_to_strip packages_to_ignore : List String)
    (output_package module_pre : String)
    (maps : (String → Finset Entrypoint) × (String → Finset Entrypoint))
    (s : ExportedSymbol) :
    (String → Finset Entrypoint) × (String → Finset Entrypoint) :=
  if _should_skip_file s.file_name file_prefixes_to_strip packages_to_ignore module_pre then
    maps
  else
    (add_exported_symbols output_package s s.v1_apis maps.1,
     add_exported_symbols output_package s s.v2_apis maps.2)

/-- The entrypoint-building loop of `get_public_api` over all symbol records. -/
def get_public_api_entrypoints (symbols : List ExportedSymbol)
    (file_prefixes_to_strip packages_to_ignore : List String)
    (output_package module_pre : String) :
    (String → Finset Entrypoint) × (String → Finset Entrypoint) :=
  symbols.foldl
    (get_public_api_step file_prefixes_to_strip packages_to_ignore output_package module_pre)
    (fun _ => (∅ : Finset Entrypoint), fun _ => (∅ : Finset Entrypoint))

/-! ### String and search lemmas -/

lemma string_data_append (x y : String) : (x ++ y).data = x.data ++ y.data := by
  cases x; cases y; rfl

lemma string_mk_data (s : String) : (⟨s.data⟩ : String) = s := by
  cases s; rfl

lemma findIdxCh_eq_none (c : Char) (l : List Char) (h : c ∉ l) : findIdxCh c l = none := by
  induction l with
  | nil => rfl
  | cons x xs ih =>
    have hx : ¬ x = c := fun hxc => h (by simp [hxc])
    have hxs : c ∉ xs := fun hm => h (List.mem_cons_of_mem _ hm)
    simp [findIdxCh, if_neg hx, ih hxs]

lemma findIdxCh_append_cons (c : Char) (a r : List Char) (h : c ∉ a) :
    findIdxCh c (a ++ c :: r) = some a.length := by
  induction a with
  | nil => simp [findIdxCh]
  | cons x xs ih =>
    have hx : ¬ x = c := fun hxc => h (by simp [hxc])
    have hxs : c ∉ xs := fun hm => h (List.mem_cons_of_mem _ hm)
    simp [findIdxCh, if_neg hx, ih hxs]

lemma findIdxCh_eq_some (c : Char) (l : List Char) (n : Nat)
    (h : findIdxCh c l = some n) :
    ∃ a b, l = a ++ c :: b ∧ c ∉ a ∧ a.length = n := by
  induction l generalizing n with
  | nil => simp [findIdxCh] at h
  | cons x xs ih =>
    by_cases hx : x = c
    · subst hx
      simp [findIdxCh] at h
      exact ⟨[], xs, by simp, by simp, by simp [h]⟩
    · simp only [findIdxCh, if_neg hx] at h
      rcases hm : findIdxCh c xs with _ | m
      · rw [hm] at h; simp at h
      · rw [hm] at h
        simp only [Option.map_some', Option.some.injEq] at h
        obtain ⟨a, b, rfl, hca, hal⟩ := ih m hm
        refine ⟨x :: a, b, by simp, ?_, by simp [hal, h]⟩
        intro hmem
        rcases List.mem_cons.mp hmem with hcx | hca2
        · exact hx hcx.symm
        · exact hca hca2

lemma pyFind_eq_neg_one (l : List Char) (c : Char) (h : c ∉ l) : pyFind l c = -1 := by
  simp [pyFind, findIdxCh_eq_none c l h]

lemma pyFind_append_cons (a r : List Char) (c : Char) (h : c ∉ a) :
    pyFind (a ++ c :: r) c = (a.length : Int) := by
  simp [pyFind, findIdxCh_append_cons c a r h]

lemma pyRfind_eq_neg_one (l : List Char) (c : Char) (h : c ∉ l) : pyRfind l c = -1 := by
  simp [pyRfind, findIdxCh_eq_none c l.reverse (by simp [h])]

lemma pyRfind_append_cons (x y : List Char) (c : Char) (h : c ∉ y) :
    pyRfind (x ++ c :: y) c = (x.length : Int) := by
  have hrev : (x ++ c :: y).reverse = y.reverse ++ c :: x.reverse := by
    simp [List.reverse_append]
  unfold pyRfind
  rw [hrev, findIdxCh_append_cons c y.reverse x.reverse (by simp [h])]
  simp [List.length_append]
  omega

lemma pyRfind_lt_length (l : List Char) (c : Char) : pyRfind l c < (l.length : Int) := by
  unfold pyRfind
  split <;> omega

lemma pyRfind_decomp (l : List Char) (c : Char) (h : 0 ≤ pyRfind l c) :
    ∃ x y, l = x ++ c :: y ∧ c ∉ y ∧ (x.length : Int) = pyRfind l c := by
  rcases hm : findIdxCh c l.reverse with _ | n
  · exfalso
    have hx : pyRfind l c = -1 := by
      unfold pyRfind
      rw [hm]
    omega
  · have hx : pyRfind l c = (l.length : Int) - 1 - (n : Int) := by
      unfold pyRfind
      rw [hm]
    obtain ⟨a, b, hrev, hca, hal⟩ := findIdxCh_eq_some c l.reverse n hm
    have hl : l = b.reverse ++ c :: a.reverse := by
      have := congrArg List.reverse hrev
      simpa [List.reverse_append] using this
    have hlen : l.length = a.length + 1 + b.length := by
      have := congrArg List.length hrev
      simp [List.length_append] at this
      omega
    refine ⟨b.reverse, a.reverse, hl, by simp [hca], ?_⟩
    simp only [List.length_reverse, hx]
    omega

lemma drop_after_last (x y : List Char) (ch : Char) :
    (x ++ ch :: y).drop (x.length + 1) = y := by
  have h1 : x ++ ch :: y = (x ++ [ch]) ++ y := by simp
  rw [h1]
  have h2 : (x ++ [ch]).length = x.length + 1 := by simp
  rw [← h2, List.drop_left]

lemma apiName_decomp (api : String) (x y : List Char) (hy : '.' ∉ y)
    (hx : api.data = x ++ '.' :: y) : apiName api = ⟨y⟩ := by
  have hr : pyRfind api.data '.' = (x.length : Int) := by
    rw [hx]; exact pyRfind_append_cons x y '.' hy
  have ht : ((x.length : Int) + 1).toNat = x.length + 1 := by omega
  simp only [apiName, hr, pySliceFrom]
  rw [if_pos (by omega), ht, hx, drop_after_last]

lemma apiFields_no_dot (output_package api : String) (h : '.' ∉ api.data) :
    apiModule output_package api = output_package ∧ apiName api = api := by
  have hf := pyFind_eq_neg_one api.data '.' h
  have hr := pyRfind_eq_neg_one api.data '.' h
  constructor
  · simp only [apiModule, hf, hr]
    rw [if_neg (by omega)]
  · simp only [apiName, hr, pySliceFrom]
    rw [if_pos (by omega)]
    have ht : ((-1 : Int) + 1).toNat = 0 := by omega
    rw [ht, List.drop_zero, string_mk_data]

lemma apiFields_one_dot (output_package a c : String)
    (ha : '.' ∉ a.data) (hc : '.' ∉ c.data) :
    apiModule output_package (a ++ "." ++ c) = output_package ∧
    apiName (a ++ "." ++ c) = c := by
  have hdot : ("." : String).data = ['.'] := rfl
  have hdata : (a ++ "." ++ c).data = a.data ++ '.' :: c.data := by
    simp [string_data_append, hdot]
  have hf : pyFind (a ++ "." ++ c).data '.' = (a.data.length : Int) := by
    rw [hdata]; exact pyFind_append_cons a.data c.data '.' ha
  have hr : pyRfind (a ++ "." ++ c).data '.' = (a.data.length : Int) := by
    rw [hdata]; exact pyRfind_append_cons a.data c.data '.' hc
  constructor
  · simp only [apiModule, hf, hr]
    rw [if_neg (by omega)]
  · rw [apiName_decomp (a ++ "." ++ c) a.data c.data hc hdata, string_mk_data]

lemma apiFields_two_dots (output_package a mid c : String)
    (ha : '.' ∉ a.data) (hc : '.' ∉ c.data) :
    apiModule output_package (a ++ "." ++ mid ++ "." ++ c) =
      (if mid = "" then output_package else output_package ++ "." ++ mid) ∧
    apiName (a ++ "." ++ mid ++ "." ++ c) = c := by
  have hdot : ("." : String).data = ['.'] := rfl
  have hdata : (a ++ "." ++ mid ++ "." ++ c).data
      = a.data ++ '.' :: (mid.data ++ '.' :: c.data) := by
    simp [string_data_append, hdot]
  have hdata2 : (a ++ "." ++ mid ++ "." ++ c).data
      = (a.data ++ '.' :: mid.data) ++ '.' :: c.data := by
    rw [hdata]; simp
  have hf : pyFind (a ++ "." ++ mid ++ "." ++ c).data '.' = (a.data.length : Int) := by
    rw [hdata]; exact pyFind_append_cons a.data _ '.' ha
  have hr : pyRfind (a ++ "." ++ mid ++ "." ++ c).data '.'
      = ((a.data ++ '.' :: mid.data).length : Int) := by
    rw [hdata2]; exact pyRfind_append_cons _ c.data '.' hc
  have hlen : (a.data ++ '.' :: mid.data).length = a.data.length + 1 + mid.data.length := by
    simp
    omega
  refine ⟨?_, by rw [apiName_decomp _ _ c.data hc hdata2, string_mk_data]⟩
  by_cases hmid : mid = ""
  · subst hmid
    have hnil : ("" : String).data = [] := rfl
    simp only [apiModule, hf, hr, hlen, hnil, List.length_nil]
    rw [if_neg (by omega)]
    simp
  · have hmidlen : 0 < mid.data.length := by
      cases mid with
      | mk l =>
        cases l with
        | nil => exact absurd (by rfl) hmid
        | cons x xs => simp
    have hslice1 : pySliceTo (a ++ "." ++ mid ++ "." ++ c).data
        ((a.data ++ '.' :: mid.data).length : Int) = a.data ++ '.' :: mid.data := by
      rw [hdata2]
      simp only [pySliceTo]
      rw [if_pos (by omega), Int.toNat_natCast]
      exact List.take_left _ _
    have hslice2 : pySliceFrom (a.data ++ '.' :: mid.data) ((a.data.length : Int) + 1)
        = mid.data := by
      simp only [pySliceFrom]
      have ht : ((a.data.length : Int) + 1).toNat = a.data.length + 1 := by omega
      rw [if_pos (by omega), ht, drop_after_last]
    simp only [apiModule, hf, hr]
    rw [if_pos (by rw [hlen]; push_cast; omega), hslice1, hslice2, string_mk_data,
      if_neg hmid]

/-- C6: the containing module of every Entrypoint built by the aggregator is a
function of the public name alone — for a name of shape `a.mid.c` (with
dot-free `a`, `c`) the module is the output package extended by the portion
`mid` strictly between the first and last dot when that portion is non-empty
and the output package alone otherwise, names with zero or one dot land in the
output package itself, and the exposed name is always the portion after the
last dot. -/
theorem claim_C6_module_from_name (output_package api a mid c : String) :
    ('.' ∉ api.data →
      apiModule output_package api = output_package ∧ apiName api = api) ∧
    ('.' ∉ a.data → '.' ∉ c.data → api = a ++ "." ++ c →
      apiModule output_package api = output_package ∧ apiName api = c) ∧
    ('.' ∉ a.data → '.' ∉ c.data → api = a ++ "." ++ mid ++ "." ++ c →
      apiModule output_package api =
        (if mid = "" then output_package else output_package ++ "." ++ mid) ∧
      apiName api = c) := by
  refine ⟨fun h => apiFields_no_dot output_package api h,
    fun ha hc he => ?_, fun ha hc he => ?_⟩
  · subst he; exact apiFields_one_dot output_package a c ha hc
  · subst he; exact apiFields_two_dots output_package a mid c ha hc

/-- Witness for C6 at the concrete names `v2.widgets.Baz` and `flat`. -/
theorem claim_C6_witness :
    (apiModule "ns" "v2.widgets.Baz" = "ns.widgets" ∧ apiName "v2.widgets.Baz" = "Baz") ∧
    (apiModule "ns" "flat" = "ns" ∧ apiName "flat" = "flat") := by
  constructor
  · have h := (claim_C6_module_from_name "ns" "v2.widgets.Baz" "v2" "widgets" "Baz").2.2
      (by decide) (by decide) (by decide)
    refine ⟨?_, h.2⟩
    rw [h.1]
    decide
  · exact (claim_C6_module_from_name "ns" "flat" "" "" "").1 (by decide)

/-! ### C5: ignored packages produce no entrypoints in either version -/

lemma add_exported_symbols_mem (output_package : String) (s : ExportedSymbol)
    (api_names : List String) (eps : String → Finset Entrypoint) (k : String)
    (e : Entrypoint)
    (he : e ∈ add_exported_symbols output_package s api_names eps k) :
    e ∈ eps k ∨ e.exported_symbol = s := by
  induction api_names generalizing eps with
  | nil => exact Or.inl he
  | cons api rest ih =>
    simp only [add_exported_symbols, List.foldl_cons] at he
    rcases ih _ he with hmem | hsym
    · by_cases hk : k = apiModule output_package api
      · rw [if_pos hk] at hmem
        rcases Finset.mem_insert.mp hmem with he2 | he3
        · exact Or.inr (by rw [he2])
        · exact Or.inl he3
      · rw [if_neg hk] at hmem
        exact Or.inl hmem
    · exact Or.inr hsym

lemma entrypoints_fold_skip (symbols : List ExportedSymbol)
    (file_prefixes_to_strip packages_to_ignore : List String)
    (output_package module_pre : String) (s : ExportedSymbol)
    (hskip : _should_skip_file s.file_name file_prefixes_to_strip packages_to_ignore
      module_pre = true)
    (init : (String → Finset Entrypoint) × (String → Finset Entrypoint))
    (hinit : ∀ k e, (e ∈ init.1 k → e.exported_symbol ≠ s) ∧
      (e ∈ init.2 k → e.exported_symbol ≠ s)) :
    ∀ k e,
      (e ∈ (symbols.foldl (get_public_api_step file_prefixes_to_strip packages_to_ignore
        output_package module_pre) init).1 k → e.exported_symbol ≠ s) ∧
      (e ∈ (symbols.foldl (get_public_api_step file_prefixes_to_strip packages_to_ignore
        output_package module_pre) init).2 k → e.exported_symbol ≠ s) := by
  induction symbols generalizing init with
  | nil => exact hinit
  | cons r rest ih =>
    simp only [List.foldl_cons]
    apply ih
    intro k e
    by_cases hr : _should_skip_file r.file_name file_prefixes_to_strip packages_to_ignore
      module_pre = true
    · simp only [get_public_api_step, if_pos hr]
      exact hinit k e
    · simp only [get_public_api_step, if_neg hr]
      constructor
      · intro hmem hsym
        rcases add_exported_symbols_mem output_package r r.v1_apis init.1 k e hmem with
          h1 | h2
        · exact (hinit k e).1 h1 hsym
        · apply hr
          rw [h2] at hsym
          rw [hsym] at h2 ⊢
          exact hskip
      · intro hmem hsym
        rcases add_exported_symbols_mem output_package r r.v2_apis init.2 k e hmem with
          h1 | h2
        · exact (hinit k e).2 h1 hsym
        · apply hr
          rw [h2] at hsym
          rw [hsym] at h2 ⊢
          exact hskip

/-- C5: a symbol whose normalized import path starts with an ignored package
prefix (as decided by `_should_skip_file`) contributes no `Entrypoint` to
either the version-1 or the version-2 entrypoint map; the skip is
unconditional, not per-version. -/
theorem claim_C5_ignored_packages_skip (symbols : List ExportedSymbol)
    (file_prefixes_to_strip packages_to_ignore : List String)
    (output_package module_pre : String) (s : ExportedSymbol) (k : String)
    (e : Entrypoint)
    (hskip : _should_skip_file s.file_name file_prefixes_to_strip packages_to_ignore
      module_pre = true) :
    (e ∈ (get_public_api_entrypoints symbols file_prefixes_to_strip packages_to_ignore
      output_package module_pre).1 k → e.exported_symbol ≠ s) ∧
    (e ∈ (get_public_api_entrypoints symbols file_prefixes_to_strip packages_to_ignore
      output_package module_pre).2 k → e.exported_symbol ≠ s) :=
  entrypoints_fold_skip symbols file_prefixes_to_strip packages_to_ignore
    output_package module_pre s hskip _
    (fun _ _ => ⟨fun h => absurd h (Finset.not_mem_empty _),
      fun h => absurd h (Finset.not_mem_empty _)⟩) k e

/-! ### C1: the ancestor linker `add_generated_imports` -/

lemma data_mk (l : List Char) : (⟨l⟩ : String).data = l := rfl

/-- Inner while-loop of `add_generated_imports` in `get_public_api`: starting
from a module name, repeatedly cut at the last dot, record an edge from the
parent prefix to the current module, and continue from the parent. -/
def addChain (imp : String → Finset String) (module : List Char) :
    String → Finset String :=
  if _h : 0 ≤ pyRfind module '.' then
    addChain
      (fun k => if k = (⟨pySliceTo module (pyRfind module '.')⟩ : String) then
        insert (⟨module⟩ : String) (imp k) else imp k)
      (pySliceTo module (pyRfind module '.'))
  else imp
termination_by module.length
decreasing_by
  have hlt := pyRfind_lt_length module '.'
  simp only [pySliceTo, if_pos _h]
  rw [List.length_take]
  omega

/-- Outer loop of `add_generated_imports` over the module keys of the
entrypoint map. -/
def add_generated_imports (modules : List String) (imp : String → Finset String) :
    String → Finset String :=
  modules.foldl (fun acc m => addChain acc m.data) imp

lemma addChain_mono_aux : ∀ (fuel : Nat) (module : List Char), module.length ≤ fuel →
    ∀ (imp : String → Finset String) (p c : String),
      c ∈ imp p → c ∈ addChain imp module p := by
  intro fuel
  induction fuel with
  | zero =>
    intro module hlen imp p c hc
    have hnil : module = [] := List.eq_nil_of_length_eq_zero (Nat.le_zero.mp hlen)
    subst hnil
    rw [addChain, dif_neg (by decide)]
    exact hc
  | succ n ih =>
    intro module hlen imp p c hc
    rw [addChain]
    by_cases h : 0 ≤ pyRfind module '.'
    · rw [dif_pos h]
      apply ih
      · have hlt := pyRfind_lt_length module '.'
        simp only [pySliceTo, if_pos h]
        rw [List.length_take]
        omega
      · by_cases hp : p = (⟨pySliceTo module (pyRfind module '.')⟩ : String)
        · rw [if_pos hp]
          exact Finset.mem_insert_of_mem hc
        · rw [if_neg hp]
          exact hc
    · rw [dif_neg h]
      exact hc

lemma addChain_inv_aux : ∀ (fuel : Nat) (module : List Char), module.length ≤ fuel →
    ∀ (imp : String → Finset String) (p c : String),
      c ∈ addChain imp module p →
      c ∈ imp p ∨ ∃ seg : List Char, '.' ∉ seg ∧ c.data = p.data ++ '.' :: seg := by
  intro fuel
  induction fuel with
  | zero =>
    intro module hlen imp p c hc
    have hnil : module = [] := List.eq_nil_of_length_eq_zero (Nat.le_zero.mp hlen)
    subst hnil
    rw [addChain, dif_neg (by decide)] at hc
    exact Or.inl hc
  | succ n ih =>
    intro module hlen imp p c hc
    rw [addChain] at hc
    by_cases h : 0 ≤ pyRfind module '.'
    · rw [dif_pos h] at hc
      have hfuel : (pySliceTo module (pyRfind module '.')).length ≤ n := by
        have hlt := pyRfind_lt_length module '.'
        simp only [pySliceTo, if_pos h]
        rw [List.length_take]
        omega
      rcases ih _ hfuel _ _ _ hc with hmem | hseg
      · by_cases hp : p = (⟨pySliceTo module (pyRfind module '.')⟩ : String)
        · rw [if_pos hp] at hmem
          rcases Finset.mem_insert.mp hmem with hc2 | hc3
          · obtain ⟨x, y, hxy, hy, hxlen⟩ := pyRfind_decomp module '.' h
            refine Or.inr ⟨y, hy, ?_⟩
            have hslice : pySliceTo module (pyRfind module '.') = x := by
              rw [← hxlen]
              simp only [pySliceTo]
              rw [if_pos (by omega), Int.toNat_natCast, hxy]
              exact List.take_left _ _
            rw [hc2, hp, hslice, data_mk, data_mk, hxy]
          · exact Or.inl hc3
        · rw [if_neg hp] at hmem
          exact Or.inl hmem
      · exact Or.inr hseg
    · rw [dif_neg h] at hc
      exact Or.inl hc

lemma addChain_adds (module x y : List Char) (hy : '.' ∉ y)
    (hxy : module = x ++ '.' :: y) (imp : String → Finset String) :
    (⟨module⟩ : String) ∈ addChain imp module ⟨x⟩ := by
  have hr : pyRfind module '.' = (x.length : Int) := by
    rw [hxy]
    exact pyRfind_append_cons x y '.' hy
  have h : 0 ≤ pyRfind module '.' := by omega
  have hslice : pySliceTo module (pyRfind module '.') = x := by
    rw [hr, hxy]
    simp only [pySliceTo]
    rw [if_pos (by omega), Int.toNat_natCast]
    exact List.take_left _ _
  rw [addChain, dif_pos h, hslice]
  exact addChain_mono_aux x.length x le_rfl _ _ _ (by simp)

lemma addChain_adds_parent (module x y a b : List Char) (hy : '.' ∉ y) (hb : '.' ∉ b)
    (hxy : module = x ++ '.' :: y) (hab : x = a ++ '.' :: b)
    (imp : String → Finset String) :
    (⟨x⟩ : String) ∈ addChain imp module ⟨a⟩ := by
  have hr : pyRfind module '.' = (x.length : Int) := by
    rw [hxy]
    exact pyRfind_append_cons x y '.' hy
  have h : 0 ≤ pyRfind module '.' := by omega
  have hslice : pySliceTo module (pyRfind module '.') = x := by
    rw [hr, hxy]
    simp only [pySliceTo]
    rw [if_pos (by omega), Int.toNat_natCast]
    exact List.take_left _ _
  rw [addChain, dif_pos h, hslice]
  exact addChain_adds x a b hb hab _

lemma add_generated_imports_mono (modules : List String) (imp : String → Finset String)
    (p c : String) (hc : c ∈ imp p) : c ∈ add_generated_imports modules imp p := by
  induction modules generalizing imp with
  | nil => exact hc
  | cons m rest ih =>
    simp only [add_generated_imports, List.foldl_cons]
    exact ih _ (addChain_mono_aux m.data.length m.data le_rfl imp p c hc)

lemma add_generated_imports_inv (modules : List String) (imp : String → Finset String)
    (p c : String) (hc : c ∈ add_generated_imports modules imp p) :
    c ∈ imp p ∨ ∃ seg : List Char, '.' ∉ seg ∧ c.data = p.data ++ '.' :: seg := by
  induction modules generalizing imp with
  | nil => exact Or.inl hc
  | cons m rest ih =>
    simp only [add_generated_imports, List.foldl_cons] at hc
    rcases ih _ hc with hmem | hseg
    · exact addChain_inv_aux m.data.length m.data le_rfl imp p c hmem
    · exact Or.inr hseg

lemma add_generated_imports_edge1 (modules : List String) (imp : String → Finset String)
    (m : String) (x y : List Char) (hm : m ∈ modules) (hy : '.' ∉ y)
    (hxy : m.data = x ++ '.' :: y) :
    m ∈ add_generated_imports modules imp ⟨x⟩ := by
  induction modules generalizing imp with
  | nil => cases hm
  | cons r rest ih =>
    simp only [add_generated_imports, List.foldl_cons]
    rcases List.mem_cons.mp hm with hrm | hm2
    · subst hrm
      apply add_generated_imports_mono
      have := addChain_adds m.data x y hy hxy imp
      rwa [string_mk_data] at this
    · exact ih _ hm2

lemma add_generated_imports_edge2 (modules : List String) (imp : String → Finset String)
    (m : String) (x y a b : List Char) (hm : m ∈ modules) (hy : '.' ∉ y) (hb : '.' ∉ b)
    (hxy : m.data = x ++ '.' :: y) (hab : x = a ++ '.' :: b) :
    (⟨x⟩ : String) ∈ add_generated_imports modules imp ⟨a⟩ := by
  induction modules generalizing imp with
  | nil => cases hm
  | cons r rest ih =>
    simp only [add_generated_imports, List.foldl_cons]
    rcases List.mem_cons.mp hm with hrm | hm2
    · subst hrm
      apply add_generated_imports_mono
      exact addChain_adds_parent m.data x y a b hy hb hxy hab imp
    · exact ih _ hm2

/-- C1 (amended): for a module key of the form `a.b.c` (dot-free trailing
segments) present in the entrypoint map, the generated-imports map contains
the chain edges `a.b → a.b.c` and `a → a.b`; the indirect ancestor edge
`a → a.b.c` the spec also claims is NOT recorded (see
`claim_C1_counterexample`): every recorded edge goes from a parent prefix to
its immediate child on the dotted chain. -/
theorem claim_C1_chain_edges (modules : List String) (imp : String → Finset String)
    (a b c : String) (hb : '.' ∉ b.data) (hc : '.' ∉ c.data)
    (hm : (a ++ "." ++ b ++ "." ++ c) ∈ modules) :
    (a ++ "." ++ b ++ "." ++ c) ∈
      add_generated_imports modules imp (a ++ "." ++ b) ∧
    (a ++ "." ++ b) ∈ add_generated_imports modules imp a := by
  have hdot : ("." : String).data = ['.'] := rfl
  have hdata : (a ++ "." ++ b ++ "." ++ c).data
      = (a ++ "." ++ b).data ++ '.' :: c.data := by
    simp [string_data_append, hdot]
  have hdata2 : (a ++ "." ++ b).data = a.data ++ '.' :: b.data := by
    simp [string_data_append, hdot]
  constructor
  · have h := add_generated_imports_edge1 modules imp _ _ _ hm hc hdata
    rwa [string_mk_data] at h
  · have h := add_generated_imports_edge2 modules imp _ _ c.data a.data b.data
      hm hc hb hdata hdata2
    rwa [string_mk_data, string_mk_data] at h

/-- Witness for C1 at the concrete module key `x.y.z`. -/
theorem claim_C1_witness :
    ("x" ++ "." ++ "y" ++ "." ++ "z") ∈
      add_generated_imports ["x.y.z"] (fun _ => ∅) ("x" ++ "." ++ "y") ∧
    ("x" ++ "." ++ "y") ∈ add_generated_imports ["x.y.z"] (fun _ => ∅) "x" :=
  claim_C1_chain_edges ["x.y.z"] (fun _ => ∅) "x" "y" "z"
    (by decide) (by decide) (by decide)

/-- Counterexample to C1 as stated: with the single entrypoint-map key
`a.b.c`, the generated-imports map contains the edge `a → a.b` but NOT the
ancestor edge `a → a.b.c` that the claim requires. -/
theorem claim_C1_counterexample :
    ("a.b.c" : String) ∈ (["a.b.c"] : List String) ∧
    ("a.b" : String) ∈ add_generated_imports ["a.b.c"] (fun _ => ∅) "a" ∧
    ("a.b.c" : String) ∉ add_generated_imports ["a.b.c"] (fun _ => ∅) "a" := by
  refine ⟨by decide, ?_, ?_⟩
  · have h := add_generated_imports_edge2 ["a.b.c"] (fun _ => ∅) "a.b.c"
      ("a.b" : String).data ("c" : String).data ("a" : String).data ("b" : String).data
      (by decide) (by decide) (by decide) (by decide) (by decide)
    rwa [string_mk_data, string_mk_data] at h
  · intro hmem
    rcases add_generated_imports_inv ["a.b.c"] (fun _ => ∅) "a" "a.b.c" hmem with
      h | ⟨seg, hseg, hdata⟩
    · exact absurd h (Finset.not_mem_empty _)
    · have hd1 : ("a.b.c" : String).data = ['a', '.', 'b', '.', 'c'] := rfl
      have hd2 : ("a" : String).data = ['a'] := rfl
      rw [hd1, hd2, List.singleton_append] at hdata
      injection hdata with _ h2
      injection h2 with _ h3
      rw [← h3] at hseg
      exact hseg (by decide)

/-- Concrete symbol for the C5 witness: its file lives under an ignored
package. -/
def c5sym : ExportedSymbol := ⟨"ignored/foo.py", "Baz", 3, ["x"], ["y"]⟩

/-- Witness for C5 at a concrete skipped symbol. -/
theorem claim_C5_witness :
    _should_skip_file c5sym.file_name [] ["ignored"] "" = true ∧
    ((⟨"ns", "x", c5sym⟩ : Entrypoint) ∈
        (get_public_api_entrypoints [c5sym] [] ["ignored"] "ns" "").1 "ns" →
      (⟨"ns", "x", c5sym⟩ : Entrypoint).exported_symbol ≠ c5sym) ∧
    ((⟨"ns", "x", c5sym⟩ : Entrypoint) ∈
        (get_public_api_entrypoints [c5sym] [] ["ignored"] "ns" "").2 "ns" →
      (⟨"ns", "x", c5sym⟩ : Entrypoint).exported_symbol ≠ c5sym) := by
  refine ⟨by decide, ?_, ?_⟩
  · exact (claim_C5_ignored_packages_skip [c5sym] [] ["ignored"] "ns" "" c5sym "ns"
      ⟨"ns", "x", c5sym⟩ (by decide)).1
  · exact (claim_C5_ignored_packages_skip [c5sym] [] ["ignored"] "ns" "" c5sym "ns"
      ⟨"ns", "x", c5sym⟩ (by decide)).2

/-! ### Renderer: generated-import lines, eager vs lazy (C7, C9) -/

/-- Python `s.replace(pat, rep)` for a non-empty multi-character pattern:
replace non-overlapping occurrences left to right. -/
def pyReplaceStr (l pat rep : List Char) : List Char :=
  match l with
  | [] => []
  | ch :: rest =>
    if pat ≠ [] ∧ pat.isPrefixOf (ch :: rest) = true then
      rep ++ pyReplaceStr ((ch :: rest).drop pat.length) pat rep
    else
      ch :: pyReplaceStr rest pat rep
termination_by l.length
decreasing_by
  · simp only [List.length_drop, List.length_cons]
    have hpat : 0 < pat.length := by
      cases pat with
      | nil => simp at *
      | cons p ps => simp
    omega
  · simp

/-- The `imp.replace(output_package, subpackage_rewrite)` step of
`_get_imports_for_module`, applied only when a subpackage rewrite was
supplied. -/
def applySubpackageRewrite (output_package : String) (sub : Option String)
    (imp : String) : String :=
  match sub with
  | some s => ⟨pyReplaceStr imp.data output_package.data s.data⟩
  | none => imp

/-- One generated (child-module) import line of `_get_imports_for_module`:
the lazy entry `'{imp[last_dot+1:]}': ('', '{imp}'),` or the eager line
`from {imp[:last_dot]} import {imp[last_dot+1:]}`. -/
def renderGeneratedImport (output_package : String) (sub : Option String)
    (use_lazy_loading : Bool) (imp0 : String) : String :=
  let imp := applySubpackageRewrite output_package sub imp0
  let last_dot := pyRfind imp.data '.'
  if use_lazy_loading then
    "  '" ++ (⟨pySliceFrom imp.data (last_dot + 1)⟩ : String) ++ "': ('', '" ++
      imp ++ "'),\n"
  else
    "from " ++ (⟨pySliceTo imp.data last_dot⟩ : String) ++ " import " ++
      (⟨pySliceFrom imp.data (last_dot + 1)⟩ : String) ++ "\n"

/-- The generated-imports loop of `_get_imports_for_module`, concatenating
one line per import target, in the order the underlying set happens to be
enumerated. -/
def renderGeneratedImports (output_package : String) (sub : Option String)
    (use_lazy_loading : Bool) (imps : List String) : String :=
  imps.foldl
    (fun acc imp => acc ++ renderGeneratedImport output_package sub use_lazy_loading imp)
    ""

/-- `_Entrypoint.get_import` of `generator.py`: the eager import statement or
the lazy table entry for one entrypoint. -/
def Entrypoint.get_import (e : Entrypoint) (file_prefixes_to_strip : List String)
    (module_pre : String) (use_lazy_loading : Bool) : String :=
  let module_import_path :=
    _get_import_path e.exported_symbol.file_name file_prefixes_to_strip module_pre
  let symbol_name := e.exported_symbol.symbol_name
  let aliasSuffix := if e.name ≠ symbol_name then " as " ++ e.name else ""
  if use_lazy_loading = false then
    "from " ++ module_import_path ++ " import " ++ symbol_name ++ aliasSuffix ++
      " # line: " ++ Nat.repr e.exported_symbol.line_no
  else
    "  '" ++ e.name ++ "': ('" ++ module_import_path ++ "', '" ++ symbol_name ++
      "'), # line: " ++ Nat.repr e.exported_symbol.line_no

/-- Externally visible name bound by one generated-import line (both modes
bind the final dotted segment of the rewritten import target). -/
def generatedImportName (output_package : String) (sub : Option String)
    (imp0 : String) : String :=
  let imp := applySubpackageRewrite output_package sub imp0
  ⟨pySliceFrom imp.data (pyRfind imp.data '.' + 1)⟩

/-- Name bound in the containing namespace by the eager import statement of
`_Entrypoint.get_import`: the alias when one is emitted (`name != symbol_name`),
the imported symbol name otherwise. -/
def eagerSymbolBinding (e : Entrypoint) : String :=
  if e.name ≠ e.exported_symbol.symbol_name then e.name
  else e.exported_symbol.symbol_name

/-- Key of the `_PUBLIC_APIS` entry emitted for one entrypoint in lazy mode. -/
def lazySymbolKey (e : Entrypoint) : String := e.name

/-- Set of externally visible names of one module rendered in eager mode. -/
def eagerVisibleNames (output_package : String) (sub : Option String)
    (mods : Finset String) (eps : Finset Entrypoint) : Finset String :=
  mods.image (generatedImportName output_package sub) ∪ eps.image eagerSymbolBinding

/-- Set of `_PUBLIC_APIS` keys of one module rendered in lazy mode. -/
def lazyVisibleNames (output_package : String) (sub : Option String)
    (mods : Finset String) (eps : Finset Entrypoint) : Finset String :=
  mods.image (generatedImportName output_package sub) ∪ eps.image lazySymbolKey

/-- C7: rendering a module eagerly and lazily exposes the same set of
externally visible names — child-module lines bind the same final segment in
both modes, and the eager binding of a symbol import (alias or plain symbol
name) always equals the lazy table key. -/
theorem claim_C7_eager_lazy_same_names (output_package : String) (sub : Option String)
    (mods : Finset String) (eps : Finset Entrypoint) :
    eagerVisibleNames output_package sub mods eps =
      lazyVisibleNames output_package sub mods eps := by
  unfold eagerVisibleNames lazyVisibleNames
  congr 1
  apply Finset.image_congr
  intro e _
  unfold eagerSymbolBinding lazySymbolKey
  by_cases h : e.name = e.exported_symbol.symbol_name
  · simp [h]
  · simp [h]

/-- C9 (code behavior at the failing input): the eager rendering of the
generated-imports block is order-dependent — two enumerations of the same
two-element import set produce different file content, so the byte content is
not a function of the set alone. -/
theorem claim_C9_order_dependence :
    (["tf.a", "tf.b"] : List String).toFinset = (["tf.b", "tf.a"] : List String).toFinset ∧
    renderGeneratedImports "tf" none false ["tf.a", "tf.b"] ≠
      renderGeneratedImports "tf" none false ["tf.b", "tf.a"] := by
  constructor
  · decide
  · decide

/-! ### C8: `_get_module_wrapper` -/

/-- Fixed head of the `_DEPRECATION_FOOTER` template of `generator.py`. -/
def deprecationFooterHead : String :=
  "\nfrom tensorflow.python.util import module_wrapper as _module_wrapper\n\nif not isinstance(_sys.modules[__name__], _module_wrapper.TFModuleWrapper):\n  _sys.modules[__name__] = _module_wrapper.TFModuleWrapper(\n      _sys.modules[__name__], \""

/-- The `_DEPRECATION_FOOTER` template of `generator.py` with its four `%s`
slots substituted. -/
def _DEPRECATION_FOOTER (relative_path public_apis_name deprecated has_lite : String) :
    String :=
  deprecationFooterHead ++ relative_path ++ "\", public_apis=" ++ public_apis_name ++
    ", deprecation=" ++ deprecated ++ ",\n      has_lite=" ++ has_lite ++ ")\n"

/-- The `deprecated` field computed by `_get_module_wrapper`. -/
def wrapperDeprecated (output_dir : String) (api_version : Nat) : String :=
  if api_version = 1 ∧ pyEndsWith (pyStrip '/' output_dir) "compat/v1" = false then "True"
  else "False"

/-- The `has_lite` field computed by `_get_module_wrapper`: `'lite' in
symbols_by_module and use_lazy_loading`. -/
def wrapperHasLite (symbol_keys : Finset String) (use_lazy_loading : Bool) : String :=
  if "lite" ∈ symbol_keys ∧ use_lazy_loading = true then "True" else "False"

/-- The `public_apis_name` field computed by `_get_module_wrapper`. -/
def wrapperPublicApisName (use_lazy_loading : Bool) : String :=
  if use_lazy_loading then "_PUBLIC_APIS" else "None"

/-- `_get_module_wrapper` of `generator.py`; `symbol_keys` is the key set of
the `symbols_by_module` dictionary. -/
def _get_module_wrapper (module output_dir output_package : String) (api_version : Nat)
    (symbol_keys : Finset String) (use_lazy_loading : Bool) : String :=
  if api_version ≠ 1 ∧ use_lazy_loading = false then ""
  else
    _DEPRECATION_FOOTER (pyStrip '.' (pyCutFront module output_package))
      (wrapperPublicApisName use_lazy_loading)
      (wrapperDeprecated output_dir api_version)
      (wrapperHasLite symbol_keys use_lazy_loading)

set_option maxRecDepth 4000 in
lemma deprecation_footer_ne_empty (a b c d : String) : _DEPRECATION_FOOTER a b c d ≠ "" := by
  intro h
  have hlen := congrArg String.length h
  simp only [_DEPRECATION_FOOTER, String.length_append] at hlen
  have h1 : ("" : String).length = 0 := rfl
  have h2 : 0 < deprecationFooterHead.length := by decide
  omega

/-- C8 (amended): the wrapper footer is emitted exactly when rendering a
version-1 tree or when lazy loading is enabled, and its has-lite field is
`'True'` exactly when the literal key `lite` is present in the entrypoint map
AND lazy loading is enabled — not, as claimed, whenever a `lite` sibling is
present (see `claim_C8_counterexample`). -/
theorem claim_C8_wrapper (module output_dir output_package : String) (api_version : Nat)
    (symbol_keys : Finset String) (use_lazy_loading : Bool) :
    (_get_module_wrapper module output_dir output_package api_version symbol_keys
        use_lazy_loading ≠ "" ↔ (api_version = 1 ∨ use_lazy_loading = true)) ∧
    (wrapperHasLite symbol_keys use_lazy_loading = "True" ↔
      ("lite" ∈ symbol_keys ∧ use_lazy_loading = true)) := by
  constructor
  · unfold _get_module_wrapper
    by_cases h : api_version ≠ 1 ∧ use_lazy_loading = false
    · rw [if_pos h]
      constructor
      · intro hne
        exact absurd rfl hne
      · intro hv
        exfalso
        rcases hv with hv1 | hv2
        · exact h.1 hv1
        · rw [h.2] at hv2
          cases hv2
    · rw [if_neg h]
      constructor
      · intro _
        by_cases hv : api_version = 1
        · exact Or.inl hv
        · rcases Bool.eq_false_or_eq_true use_lazy_loading with ht | hf
          · exact Or.inr ht
          · exact absurd ⟨hv, hf⟩ h
      · intro _
        exact deprecation_footer_ne_empty _ _ _ _
  · unfold wrapperHasLite
    by_cases h : "lite" ∈ symbol_keys ∧ use_lazy_loading = true
    · rw [if_pos h]
      exact ⟨fun _ => h, fun _ => rfl⟩
    · rw [if_neg h]
      constructor
      · intro hft
        exact absurd hft (by decide)
      · intro hc
        exact absurd hc h

/-- Counterexample to C8 as stated: with the wrapper emitted for a version-1
eager tree and a `lite` entry present in the entrypoint map, the has-lite
field is `'False'`, not `'True'` — the code additionally requires lazy
loading. -/
theorem claim_C8_counterexample :
    ("lite" : String) ∈ ({"lite", "tf", "tf.lite"} : Finset String) ∧
    _get_module_wrapper "tf" "out" "tf" 1 {"lite", "tf", "tf.lite"} false ≠ "" ∧
    wrapperHasLite {"lite", "tf", "tf.lite"} false = "False" := by
  refine ⟨by decide, by decide, by decide⟩

/-! ### C3 and C10: `gen_nested_compat_files` edge removal and restoration -/

/-- Edge name used by `gen_public_api` and `gen_nested_compat_files` for one
compat version: `f'{output_package}.compat.v{compat_version}'`. -/
def compatEdge (output_package : String) (v : Nat) : String :=
  output_package ++ ".compat.v" ++ Nat.repr v

/-- The removal loop of `gen_nested_compat_files`; Python `set.remove` raises
`KeyError` when the element is absent, modelled as `none`.  The generated
imports map is shared, so the single function models both the original and
the shallow copy. -/
def removeCompatEdges (imp : String → Finset String) (compat_module : String)
    (compat_versions : List Nat) (output_package : String) :
    Option (String → Finset String) :=
  match compat_versions with
  | [] => some imp
  | v :: rest =>
    if compatEdge output_package v ∈ imp compat_module then
      removeCompatEdges
        (fun k => if k = compat_module then
          (imp compat_module).erase (compatEdge output_package v) else imp k)
        compat_module rest output_package
    else none

/-- The re-adding loop at the end of `gen_nested_compat_files`. -/
def addCompatEdges (imp : String → Finset String) (compat_module : String)
    (compat_versions : List Nat) (output_package : String) :
    String → Finset String :=
  match compat_versions with
  | [] => imp
  | v :: rest =>
    addCompatEdges
      (fun k => if k = compat_module then
        insert (compatEdge output_package v) (imp k) else imp k)
      compat_module rest output_package

/-- State of the shared generated-imports map across one
`gen_nested_compat_files` call: remove all compat edges, then re-add them
(`none` when a removal raises). -/
def gen_nested_compat_state (imp : String → Finset String) (output_package : String)
    (compat_versions : List Nat) : Option (String → Finset String) :=
  match removeCompatEdges imp (output_package ++ ".compat") compat_versions output_package with
  | some mid =>
    some (addCompatEdges mid (output_package ++ ".compat") compat_versions output_package)
  | none => none

lemma addCompatEdges_char (compat_versions : List Nat) (imp : String → Finset String)
    (compat_module output_package : String) (m : String) :
    addCompatEdges imp compat_module compat_versions output_package m =
      if m = compat_module then
        imp compat_module ∪ (compat_versions.map (compatEdge output_package)).toFinset
      else imp m := by
  induction compat_versions generalizing imp with
  | nil =>
    by_cases h : m = compat_module
    · subst h
      simp [addCompatEdges]
    · simp [addCompatEdges, h]
  | cons v rest ih =>
    simp only [addCompatEdges]
    rw [ih]
    by_cases h : m = compat_module
    · subst h
      rw [if_pos rfl, if_pos rfl, if_pos rfl, List.map_cons, List.toFinset_cons]
      ext x
      simp only [Finset.mem_union, Finset.mem_insert, List.mem_toFinset]
      tauto
    · rw [if_neg h, if_neg h, if_neg h]

lemma removeCompatEdges_char (compat_versions : List Nat)
    (imp mid : String → Finset String) (compat_module output_package : String)
    (h : removeCompatEdges imp compat_module compat_versions output_package = some mid) :
    (∀ m, m ≠ compat_module → mid m = imp m) ∧
    mid compat_module =
      imp compat_module \ (compat_versions.map (compatEdge output_package)).toFinset ∧
    ∀ v ∈ compat_versions, compatEdge output_package v ∈ imp compat_module := by
  induction compat_versions generalizing imp with
  | nil =>
    simp only [removeCompatEdges, Option.some.injEq] at h
    subst h
    exact ⟨fun m _ => rfl, by simp, by simp⟩
  | cons v rest ih =>
    simp only [removeCompatEdges] at h
    by_cases hmem : compatEdge output_package v ∈ imp compat_module
    · rw [if_pos hmem] at h
      obtain ⟨h1, h2, h3⟩ := ih _ h
      refine ⟨?_, ?_, ?_⟩
      · intro m hm
        rw [h1 m hm, if_neg hm]
      · rw [h2, if_pos rfl, List.map_cons, List.toFinset_cons]
        ext x
        simp only [Finset.mem_sdiff, Finset.mem_erase, Finset.mem_insert,
          List.mem_toFinset]
        tauto
      · intro w hw
        rcases List.mem_cons.mp hw with hwv | hw2
        · rw [hwv]
          exact hmem
        · have h4 := h3 w hw2
          rw [if_pos rfl] at h4
          exact Finset.mem_of_mem_erase h4
    · rw [if_neg hmem] at h
      simp at h

lemma removeCompatEdges_none (compat_versions : List Nat)
    (imp : String → Finset String) (compat_module output_package : String)
    (h : ∃ v ∈ compat_versions, compatEdge output_package v ∉ imp compat_module) :
    removeCompatEdges imp compat_module compat_versions output_package = none := by
  induction compat_versions generalizing imp with
  | nil =>
    obtain ⟨v, hv, _⟩ := h
    cases hv
  | cons w rest ih =>
    obtain ⟨v, hv, hnot⟩ := h
    simp only [removeCompatEdges]
    by_cases hmem : compatEdge output_package w ∈ imp compat_module
    · rw [if_pos hmem]
      apply ih
      rcases List.mem_cons.mp hv with hvw | hv2
      · rw [hvw] at hnot
        exact absurd hmem hnot
      · refine ⟨v, hv2, ?_⟩
        intro hIn
        apply hnot
        rw [if_pos rfl] at hIn
        exact Finset.mem_of_mem_erase hIn
    · rw [if_neg hmem]

lemma removeCompatEdges_isSome (compat_versions : List Nat)
    (imp : String → Finset String) (compat_module output_package : String)
    (hall : ∀ v ∈ compat_versions, compatEdge output_package v ∈ imp compat_module)
    (hnd : (compat_versions.map (compatEdge output_package)).Nodup) :
    (removeCompatEdges imp compat_module compat_versions output_package).isSome = true := by
  induction compat_versions generalizing imp with
  | nil => simp [removeCompatEdges]
  | cons v rest ih =>
    simp only [removeCompatEdges]
    rw [if_pos (hall v (List.mem_cons_self v rest))]
    rw [List.map_cons, List.nodup_cons] at hnd
    apply ih
    · intro w hw
      have hne : compatEdge output_package w ≠ compatEdge output_package v := by
        intro he
        exact hnd.1 (he ▸ List.mem_map_of_mem _ hw)
      rw [if_pos rfl]
      exact Finset.mem_erase.mpr ⟨hne, hall w (List.mem_cons_of_mem _ hw)⟩
    · exact hnd.2

/-- C3: whenever the removal loop of `gen_nested_compat_files` returns
normally, no module other than the compat module was ever modified, and after
the re-adding loop every module's import set — the compat module's included —
equals its pre-call value, so the shared map is left unchanged. -/
theorem claim_C3_restores_imports (imp : String → Finset String)
    (output_package : String) (compat_versions : List Nat)
    (mid : String → Finset String) (m : String)
    (h : removeCompatEdges imp (output_package ++ ".compat") compat_versions
      output_package = some mid) :
    (m ≠ output_package ++ ".compat" → mid m = imp m) ∧
    gen_nested_compat_state imp output_package compat_versions =
      some (addCompatEdges mid (output_package ++ ".compat") compat_versions
        output_package) ∧
    addCompatEdges mid (output_package ++ ".compat") compat_versions output_package m
      = imp m := by
  obtain ⟨h1, h2, h3⟩ := removeCompatEdges_char compat_versions imp mid
    (output_package ++ ".compat") output_package h
  refine ⟨fun hm => h1 m hm, ?_, ?_⟩
  · unfold gen_nested_compat_state
    rw [h]
  · rw [addCompatEdges_char]
    by_cases hm : m = output_package ++ ".compat"
    · rw [if_pos hm, hm, h2]
      rw [Finset.sdiff_union_of_subset]
      intro x hx
      rw [List.mem_toFinset] at hx
      obtain ⟨v, hv, hxv⟩ := List.mem_map.mp hx
      rw [← hxv]
      exact h3 v hv
    · rw [if_neg hm]
      exact h1 m hm

/-- Concrete shared imports map for the C3 witness. -/
def c3imp : String → Finset String :=
  fun k => if k = "a" ++ ".compat" then {"a.compat.v1"} else ∅

/-- Map state after the C3 witness removal step. -/
def c3mid : String → Finset String :=
  fun k => if k = "a" ++ ".compat" then
    (c3imp ("a" ++ ".compat")).erase (compatEdge "a" 1) else c3imp k

/-- Witness for C3 at a concrete one-version run. -/
theorem claim_C3_witness :
    removeCompatEdges c3imp ("a" ++ ".compat") [1] "a" = some c3mid ∧
    ((("b" : String) ≠ "a" ++ ".compat" → c3mid "b" = c3imp "b") ∧
      gen_nested_compat_state c3imp "a" [1] =
        some (addCompatEdges c3mid ("a" ++ ".compat") [1] "a") ∧
      addCompatEdges c3mid ("a" ++ ".compat") [1] "a" "b" = c3imp "b") :=
  ⟨rfl, claim_C3_restores_imports c3imp "a" [1] c3mid "b" rfl⟩

/-- C10 (amended): if any listed compat version's edge is absent from the
compat module's import set, the removal loop of `gen_nested_compat_files`
raises `KeyError` (returns `none`); when every edge is present AND the listed
versions give pairwise distinct edges, the removal loop never fails.  A
duplicated version defeats the presence-only precondition
(see `claim_C10_counterexample`). -/
theorem claim_C10_removal_precondition (imp : String → Finset String)
    (output_package : String) (compat_versions : List Nat) :
    ((∃ v ∈ compat_versions,
        compatEdge output_package v ∉ imp (output_package ++ ".compat")) →
      removeCompatEdges imp (output_package ++ ".compat") compat_versions
        output_package = none) ∧
    ((∀ v ∈ compat_versions,
        compatEdge output_package v ∈ imp (output_package ++ ".compat")) →
      (compat_versions.map (compatEdge output_package)).Nodup →
      (removeCompatEdges imp (output_package ++ ".compat") compat_versions
        output_package).isSome = true) :=
  ⟨fun h => removeCompatEdges_none compat_versions imp _ output_package h,
   fun h1 h2 => removeCompatEdges_isSome compat_versions imp _ output_package h1 h2⟩

/-- Concrete shared imports map for the C10 witness and counterexample. -/
def c10imp : String → Finset String :=
  fun k => if k = "a" ++ ".compat" then {"a.compat.v1", "a.compat.v2"} else ∅

/-- Witness for C10: a missing edge makes the removal raise, and distinct
present edges make it succeed. -/
theorem claim_C10_witness :
    removeCompatEdges c10imp ("a" ++ ".compat") [3] "a" = none ∧
    (removeCompatEdges c10imp ("a" ++ ".compat") [1, 2] "a").isSome = true := by
  constructor
  · exact (claim_C10_removal_precondition c10imp "a" [3]).1 ⟨3, by decide, by decide⟩
  · exact (claim_C10_removal_precondition c10imp "a" [1, 2]).2 (by decide) (by decide)

/-- Counterexample to C10 as stated: with the duplicated version list `[1, 1]`
every listed version's edge is present beforehand — the claimed precondition —
yet the removal loop still raises on the second pass. -/
theorem claim_C10_counterexample :
    compatEdge "a" 1 ∈ c10imp ("a" ++ ".compat") ∧
    removeCompatEdges c10imp ("a" ++ ".compat") [1, 1] "a" = none := by
  exact ⟨by decide, by rfl⟩

/-! ### C4: docstring registration -/

/-- Modelled from the spec: one docstring record of the Symbol Store
(`generator2/shared/exported_api.py`, not among the sources): a docstring
bound to a set of module names, plus the declaring file and line. -/
structure ExportedDoc where
  file_name : String
  line_no : Nat
  docstring : String
  modules : List String
deriving DecidableEq

/-- Message of the `DocExportedTwiceError` raised in `get_public_api`:
`f'Docstring at {d.file_name}:{d.line_no} is registered for {m}, which
already has a registered docstring.'` -/
def docConflictMessage (d : ExportedDoc) (m : String) : String :=
  "Docstring at " ++ d.file_name ++ ":" ++ Nat.repr d.line_no ++
    " is registered for " ++ m ++ ", which already has a registered docstring."

/-- Inner loop of the docstring registration in `get_public_api` over the
modules named by one Doc record; `docs_by_module` is modelled as an
association list. -/
def registerDocModules (d : ExportedDoc) (mods : List String)
    (docs_by_module : List (String × String)) :
    Except String (List (String × String)) :=
  match mods with
  | [] => .ok docs_by_module
  | m :: rest =>
    if m ∈ docs_by_module.map Prod.fst then .error (docConflictMessage d m)
    else registerDocModules d rest (docs_by_module ++ [(m, d.docstring)])

/-- The docstring registration loop of `get_public_api` over all Doc
records. -/
def registerDocs (docs : List ExportedDoc)
    (docs_by_module : List (String × String)) :
    Except String (List (String × String)) :=
  match docs with
  | [] => .ok docs_by_module
  | d :: rest =>
    match registerDocModules d d.modules docs_by_module with
    | .error e => .error e
    | .ok acc => registerDocs rest acc

/-- Success test for the registration result. -/
def exceptIsOk (r : Except String (List (String × String))) : Bool :=
  match r with
  | .ok _ => true
  | .error _ => false

/-- Two Doc records bind disjoint module sets. -/
def docsDisjoint (d1 d2 : ExportedDoc) : Prop :=
  ∀ m, m ∈ d1.modules → m ∉ d2.modules

lemma registerDocModules_ok (d : ExportedDoc) (mods : List String)
    (acc acc' : List (String × String))
    (h : registerDocModules d mods acc = .ok acc') :
    acc'.map Prod.fst = acc.map Prod.fst ++ mods := by
  induction mods generalizing acc with
  | nil =>
    simp only [registerDocModules, Except.ok.injEq] at h
    subst h
    simp
  | cons m rest ih =>
    simp only [registerDocModules] at h
    by_cases hm : m ∈ acc.map Prod.fst
    · rw [if_pos hm] at h
      exact Except.noConfusion h
    · rw [if_neg hm] at h
      rw [ih _ h]
      simp

lemma registerDocModules_ok_iff : ∀ (mods : List String) (d : ExportedDoc)
    (acc : List (String × String)), mods.Nodup →
    ((∃ acc', registerDocModules d mods acc = .ok acc') ↔
      ∀ m ∈ mods, m ∉ acc.map Prod.fst) := by
  intro mods
  induction mods with
  | nil =>
    intro d acc _
    simp [registerDocModules]
  | cons m rest ih =>
    intro d acc hnd
    rw [List.nodup_cons] at hnd
    simp only [registerDocModules]
    by_cases hm : m ∈ acc.map Prod.fst
    · rw [if_pos hm]
      constructor
      · rintro ⟨acc', hacc⟩
        exact Except.noConfusion hacc
      · intro hall
        exact absurd hm (hall m (List.mem_cons_self _ _))
    · rw [if_neg hm]
      rw [ih d _ hnd.2]
      constructor
      · intro hall w hw
        rcases List.mem_cons.mp hw with hwm | hw2
        · rw [hwm]
          exact hm
        · have h5 := hall w hw2
          simp only [List.map_append, List.map_cons, List.map_nil,
            List.mem_append] at h5
          intro hwacc
          exact h5 (Or.inl hwacc)
      · intro hall w hw
        simp only [List.map_append, List.map_cons, List.map_nil, List.mem_append,
          List.mem_singleton]
        rintro (hwacc | hwm)
        · exact hall w (List.mem_cons_of_mem _ hw) hwacc
        · exact hnd.1 (hwm ▸ hw)

lemma registerDocModules_error_msg (d : ExportedDoc) (mods : List String)
    (acc : List (String × String)) (msg : String)
    (h : registerDocModules d mods acc = .error msg) :
    ∃ m ∈ mods, msg = docConflictMessage d m := by
  induction mods generalizing acc with
  | nil => exact Except.noConfusion h
  | cons m rest ih =>
    simp only [registerDocModules] at h
    by_cases hm : m ∈ acc.map Prod.fst
    · rw [if_pos hm] at h
      refine ⟨m, List.mem_cons_self _ _, ?_⟩
      injection h with h2
      exact h2.symm
    · rw [if_neg hm] at h
      obtain ⟨w, hw, hmsg⟩ := ih _ h
      exact ⟨w, List.mem_cons_of_mem _ hw, hmsg⟩

lemma registerDocs_error_msg : ∀ (docs : List ExportedDoc)
    (acc : List (String × String)) (msg : String),
    registerDocs docs acc = .error msg →
    ∃ d, d ∈ docs ∧ ∃ m ∈ d.modules, msg = docConflictMessage d m := by
  intro docs
  induction docs with
  | nil =>
    intro acc msg h
    exact Except.noConfusion h
  | cons d rest ih =>
    intro acc msg h
    simp only [registerDocs] at h
    rcases hr : registerDocModules d d.modules acc with e | acc'
    · rw [hr] at h
      injection h with h2
      obtain ⟨m, hm, hmsg⟩ := registerDocModules_error_msg d d.modules acc e hr
      refine ⟨d, List.mem_cons_self _ _, m, hm, ?_⟩
      rw [← h2]
      exact hmsg
    · rw [hr] at h
      obtain ⟨d2, hd2, hrest⟩ := ih acc' msg h
      exact ⟨d2, List.mem_cons_of_mem _ hd2, hrest⟩

lemma registerDocs_ok_iff : ∀ (docs : List ExportedDoc)
    (acc : List (String × String)),
    (∀ d ∈ docs, d.modules.Nodup) →
    (exceptIsOk (registerDocs docs acc) = true ↔
      ((∀ d ∈ docs, ∀ m ∈ d.modules, m ∉ acc.map Prod.fst) ∧
        List.Pairwise docsDisjoint docs)) := by
  intro docs
  induction docs with
  | nil =>
    intro acc _
    simp [registerDocs, exceptIsOk]
  | cons d rest ih =>
    intro acc hnd
    simp only [registerDocs]
    split
    next e hr =>
      have hiff := registerDocModules_ok_iff d.modules d acc
        (hnd d (List.mem_cons_self _ _))
      have hno : ¬ (∀ m ∈ d.modules, m ∉ acc.map Prod.fst) := by
        intro hall
        obtain ⟨acc', hok⟩ := hiff.mpr hall
        rw [hok] at hr
        exact Except.noConfusion hr
      simp only [exceptIsOk]
      constructor
      · intro hfalse
        exact absurd hfalse (by decide)
      · rintro ⟨hall, _⟩
        exact absurd (fun m hm => hall d (List.mem_cons_self _ _) m hm) hno
    next acc' hr =>
      have hkeys := registerDocModules_ok d d.modules acc acc' hr
      rw [ih acc' (fun d2 hd2 => hnd d2 (List.mem_cons_of_mem _ hd2)),
        List.pairwise_cons]
      constructor
      · rintro ⟨hall, hpw⟩
        refine ⟨?_, ?_, hpw⟩
        · intro d2 hd2 m hm
          rcases List.mem_cons.mp hd2 with hdd | hd3
          · have hiff := registerDocModules_ok_iff d.modules d acc
              (hnd d (List.mem_cons_self _ _))
            exact hiff.mp ⟨acc', hr⟩ m (hdd ▸ hm)
          · have h5 := hall d2 hd3 m hm
            rw [hkeys] at h5
            simp only [List.mem_append] at h5
            intro hmk
            exact h5 (Or.inl hmk)
        · intro d2 hd2 m hm1 hm2
          have h5 := hall d2 hd2 m hm2
          rw [hkeys] at h5
          simp only [List.mem_append] at h5
          exact h5 (Or.inr hm1)
      · rintro ⟨hall, hdisj, hpw⟩
        refine ⟨?_, hpw⟩
        intro d2 hd2 m hm
        rw [hkeys]
        simp only [List.mem_append]
        rintro (hmk | hmd)
        · exact hall d2 (List.mem_cons_of_mem _ hd2) m hm hmk
        · exact hdisj d2 hd2 m hmd hm

/-- C4 (amended): given that each Doc record names distinct modules,
registration raises the conflict error if and only if two Doc records bind a
docstring to the same module, and the raised message identifies the module
and the LATER record's source location — not, as claimed, both records'
locations (see `claim_C4_counterexample`); records with pairwise-disjoint
module sets never raise, in any processing order. -/
theorem claim_C4_doc_conflicts (docs docs' : List ExportedDoc) (msg : String)
    (hnd : ∀ d ∈ docs, d.modules.Nodup) :
    (exceptIsOk (registerDocs docs []) = true ↔
      List.Pairwise docsDisjoint docs) ∧
    (registerDocs docs [] = .error msg →
      ∃ d, d ∈ docs ∧ ∃ m ∈ d.modules, msg = docConflictMessage d m) ∧
    (docs.Perm docs' →
      exceptIsOk (registerDocs docs' []) = exceptIsOk (registerDocs docs [])) := by
  have hiff := registerDocs_ok_iff docs [] hnd
  refine ⟨?_, fun h => registerDocs_error_msg docs [] msg h, ?_⟩
  · rw [hiff]
    constructor
    · rintro ⟨_, h⟩
      exact h
    · intro h
      exact ⟨fun d _ m _ => by simp, h⟩
  · intro hperm
    have hnd' : ∀ d ∈ docs', d.modules.Nodup := fun d hd =>
      hnd d (hperm.mem_iff.mpr hd)
    have hiff' := registerDocs_ok_iff docs' [] hnd'
    have hsymm : ∀ {a b : ExportedDoc}, docsDisjoint a b → docsDisjoint b a :=
      fun hab m hmb hma => hab m hma hmb
    have hp : List.Pairwise docsDisjoint docs ↔ List.Pairwise docsDisjoint docs' :=
      hperm.pairwise_iff (fun h => hsymm h)
    rcases Bool.eq_false_or_eq_true (exceptIsOk (registerDocs docs [])) with ht | hf
    · rw [ht]
      have hprop := hiff.mp ht
      exact hiff'.mpr ⟨fun d _ m _ => by simp, hp.mp hprop.2⟩
    · rw [hf]
      rcases Bool.eq_false_or_eq_true (exceptIsOk (registerDocs docs' [])) with ht' | hf'
      · exfalso
        have hprop' := hiff'.mp ht'
        have hok : exceptIsOk (registerDocs docs []) = true :=
          hiff.mpr ⟨fun d _ m _ => by simp, hp.mpr hprop'.2⟩
        rw [hok] at hf
        exact Bool.noConfusion hf
      · rw [hf']

/-- First Doc record of the C4 concrete runs. -/
def c4doc1 : ExportedDoc := ⟨"first.py", 7, "doc one", ["m"]⟩

/-- Second Doc record of the C4 concrete runs, conflicting on module `m`. -/
def c4doc2 : ExportedDoc := ⟨"second.py", 9, "doc two", ["m"]⟩

/-- Witness for C4 at a concrete conflicting pair of Doc records. -/
theorem claim_C4_witness :
    (exceptIsOk (registerDocs [c4doc1, c4doc2] []) = true ↔
      List.Pairwise docsDisjoint [c4doc1, c4doc2]) ∧
    (registerDocs [c4doc1, c4doc2] [] = .error (docConflictMessage c4doc2 "m") →
      ∃ d, d ∈ [c4doc1, c4doc2] ∧ ∃ m ∈ d.modules,
        docConflictMessage c4doc2 "m" = docConflictMessage d m) ∧
    ([c4doc1, c4doc2].Perm [c4doc2, c4doc1] →
      exceptIsOk (registerDocs [c4doc2, c4doc1] []) =
        exceptIsOk (registerDocs [c4doc1, c4doc2] [])) :=
  claim_C4_doc_conflicts [c4doc1, c4doc2] [c4doc2, c4doc1]
    (docConflictMessage c4doc2 "m") (by decide)

set_option maxRecDepth 40000 in
/-- Counterexample to C4 as stated: the conflict error raised for two Doc
records binding module `m` carries only the second record's location —
neither the first record's file `first.py` nor its line `7` occurs anywhere
in the message. -/
theorem claim_C4_counterexample :
    registerDocs [c4doc1, c4doc2] [] = .error
      "Docstring at second.py:9 is registered for m, which already has a registered docstring." ∧
    ¬ (("first.py" : String).data <:+:
      ("Docstring at second.py:9 is registered for m, which already has a registered docstring." : String).data) ∧
    ¬ (("7" : String).data <:+:
      ("Docstring at second.py:9 is registered for m, which already has a registered docstring." : String).data) := by
  refine ⟨by rfl, by decide, by decide⟩

/-! ### C2: modules written by `gen_nested_compat_files` -/

/-- Key-set computation of `_gen_init_files`: the union of the entrypoint-map
keys and the generated-imports-map keys, keeping only modules at least as
long as the output package (`len(module) < len(output_package)` entries are
skipped). -/
def gen_init_files_modules (symbol_keys import_keys : Finset String)
    (output_package : String) : Finset String :=
  (symbol_keys ∪ import_keys).filter (fun m => output_package.length ≤ m.length)

/-- Modules for which `gen_nested_compat_files` writes a file: all entrypoint
map keys other than the output package and the compat module are deleted from
a copy before calling `_gen_init_files`, while the generated-imports-map copy
keeps ALL its keys. -/
def gen_nested_compat_written (symbol_keys import_keys : Finset String)
    (output_package : String) : Finset String :=
  gen_init_files_modules
    (symbol_keys.filter
      (fun m => m = output_package ∨ m = output_package ++ ".compat"))
    import_keys output_package

/-- C2 (amended): every module file written by `gen_nested_compat_files` is
the output root, the compat module, or a key of the generated-imports map —
only the entrypoint-map copy has its other keys deleted, the generated-imports
keys are all retained and rendered (see `claim_C2_counterexample`). -/
theorem claim_C2_written_modules (symbol_keys import_keys : Finset String)
    (output_package m : String)
    (hm : m ∈ gen_nested_compat_written symbol_keys import_keys output_package) :
    m ∈ import_keys ∨ m = output_package ∨ m = output_package ++ ".compat" := by
  unfold gen_nested_compat_written gen_init_files_modules at hm
  rw [Finset.mem_filter] at hm
  rcases Finset.mem_union.mp hm.1 with hs | hi
  · rw [Finset.mem_filter] at hs
    exact Or.inr hs.2
  · exact Or.inl hi

/-- Witness for C2 at a concrete nested-compat key configuration. -/
theorem claim_C2_witness :
    ("a" : String) ∈ gen_nested_compat_written {"a", "a.compat", "a.b.c"}
      {"a", "a.b", "a.compat"} "a" ∧
    (("a" : String) ∈ ({"a", "a.b", "a.compat"} : Finset String) ∨
      ("a" : String) = "a" ∨ ("a" : String) = "a" ++ ".compat") :=
  ⟨by decide, claim_C2_written_modules {"a", "a.compat", "a.b.c"}
    {"a", "a.b", "a.compat"} "a" "a" (by decide)⟩

/-- Counterexample to C2 as stated: with an entrypoint module `a.b.c` of
depth two below the root (as the pipeline produces for a public name with
three interior segments), the generated-imports map has key `a.b`, and
`gen_nested_compat_files` writes a file for `a.b`, which is neither the
output root nor the compat module. -/
theorem claim_C2_counterexample :
    ("a.b" : String) ∈ gen_nested_compat_written {"a", "a.compat", "a.b.c"}
      {"a", "a.b", "a.compat"} "a" ∧
    ("a.b" : String) ≠ "a" ∧ ("a.b" : String) ≠ "a" ++ ".compat" := by
  exact ⟨by decide, by decide, by decide⟩
